import Mathlib

/-!
Verification of the PI2026 boundary/ubigeo core: code normalization
(to_ubigeo6 variants), governance-level resolution (compute_gestor),
province/district boundary matching, point-in-polygon ray casting,
spatial filtering, index merging, and catalog slug cross-referencing.
All definitions are shallow embeddings of the Python sources; real
coordinates are modelled by rationals.
-/

namespace PI2026

/-! ## String utilities (shared by several scripts) -/

/-- Python str.lower restricted to the characters this repository uses:
ASCII letters plus the accented uppercase vowels and enye. -/
def pyLower (c : Char) : Char :=
  if c = 'Á' then 'á' else if c = 'É' then 'é' else if c = 'Í' then 'í'
  else if c = 'Ó' then 'ó' else if c = 'Ú' then 'ú' else if c = 'Ñ' then 'ñ'
  else c.toLower

/-- Python str.lower over a whole string. -/
def lowerStr (s : String) : String := String.mk (s.data.map pyLower)

/-- Python str.strip: drop whitespace from both ends. -/
def trimChars (l : List Char) : List Char :=
  ((l.dropWhile Char.isWhitespace).reverse.dropWhile Char.isWhitespace).reverse

/-- The digit-extraction step common to every to_ubigeo6 variant:
"".join of the characters ch of s with ch.isdigit(). -/
def digitsOf (l : List Char) : List Char := l.filter Char.isDigit

/-- s.zfill(n)[:n] : left-pad with zeros to n characters, then keep the
first n characters. -/
def zfillTake (n : Nat) (l : List Char) : List Char :=
  (List.replicate (n - l.length) '0' ++ l).take n

/-- The maps scripts' float-artifact strip: if s.endswith(".0"): s = s[:-2]. -/
def stripDotZero (l : List Char) : List Char :=
  if l.reverse.take 2 = ['0', '.'] then (l.reverse.drop 2).reverse else l

/-- to_ubigeo6 as written in maps_intersecciones.py, maps_establecimientos.py
and mix_ubigeo_geojson.py: strip, drop a trailing ".0", keep digits,
zfill(6)[:6], None when no digits remain. -/
def to_ubigeo6_maps (x : String) : Option String :=
  if digitsOf (stripDotZero (trimChars x.data)) = [] then none
  else some (String.mk (zfillTake 6 (digitsOf (stripDotZero (trimChars x.data)))))

/-- to_ubigeo6 as written in split_intersecciones_to_excels.py and
split_establecimientos_to_excels.py: strip, keep digits, zfill(6)[:6];
note there is no ".0" strip in these two scripts. -/
def to_ubigeo6_split (x : String) : Option String :=
  if digitsOf (trimChars x.data) = [] then none
  else some (String.mk (zfillTake 6 (digitsOf (trimChars x.data))))

/-- Modelled from the spec: the CodeNormalizer pipeline exactly as §4.1 and
claim C2 word it (strip a trailing ".0", discard non-digits, left-pad to 6,
truncate to 6, absent when no digits remain). Used only to compare the two
source implementations against the spec text. -/
def normalize_spec (x : String) : Option String :=
  if digitsOf (stripDotZero (trimChars x.data)) = [] then none
  else some (String.mk (zfillTake 6 (digitsOf (stripDotZero (trimChars x.data)))))

/-! ## Governance-level resolution (split_*_to_excels.py) -/

/-- Accent replacement chained after lower() in the split scripts' norm. -/
def deacc (c : Char) : Char :=
  if c = 'á' then 'a' else if c = 'é' then 'e' else if c = 'í' then 'i'
  else if c = 'ó' then 'o' else if c = 'ú' then 'u' else if c = 'ñ' then 'n' else c

/-- norm from the split scripts: strip, lower, replace accented vowels and enye. -/
def norm (s : String) : String :=
  String.mk (((trimChars s.data).map pyLower).map deacc)

/-- Python substring containment: needle in hay. -/
def hasSubstr (needle : List Char) : List Char → Bool
  | [] => needle.isEmpty
  | c :: cs => needle.isPrefixOf (c :: cs) || hasSubstr needle cs

/-- needle in hay for strings. -/
def strContains (hay needle : String) : Bool := hasSubstr needle.data hay.data

/-- The fixed provincial-competence tokens of compute_gestor. -/
def provTokens : List String := ["provincial", "provincia", "provinc", "prov"]

/-- compute_gestor from split_intersecciones_to_excels.py and
split_establecimientos_to_excels.py: provincial competence forces the
district suffix to "01", otherwise the normalized code is kept. -/
def compute_gestor (ubigeo competencia_text : String) : Option String :=
  match to_ubigeo6_split ubigeo with
  | none => none
  | some u =>
    if provTokens.any (fun k => strContains (norm competencia_text) k) then
      some (String.mk (u.data.take 4) ++ "01")
    else some u

/-! ## Geometry model and point-in-polygon engine (maps_intersecciones.py) -/

/-- A point as (longitude, latitude); reals are modelled by rationals. -/
abbrev Pt : Type := ℚ × ℚ

/-- GeoJSON geometry: Polygon, MultiPolygon, or any other type (ignored by
the containment engine). -/
inductive Geometry : Type
  | polygon (coordinates : List (List Pt))
  | multiPolygon (coordinates : List (List (List Pt)))
  | other
  deriving DecidableEq

/-- A GeoJSON feature: a property bag plus an optional geometry. -/
structure Feature : Type where
  properties : List (String × String)
  geometry : Option Geometry
  deriving DecidableEq

/-- The 1e-15 guard added to the edge-slope denominator. -/
def epsRC : ℚ := 1 / 10 ^ 15

/-- Even-odd ray casting over a ring treated cyclically: the source pairs
ring[i] with ring[(i+1) % n], which is the zip of the ring with its
rotation by one. -/
def _point_in_ring (lon lat : ℚ) (ring : List Pt) : Bool :=
  if ring = [] then false
  else
    (ring.zip (ring.rotate 1)).foldl
      (fun inside e =>
        if (decide (e.1.2 > lat)) != (decide (e.2.2 > lat)) then
          if (e.2.1 - e.1.1) * (lat - e.1.2) / (e.2.2 - e.1.2 + epsRC) + e.1.1 > lon then
            !inside
          else inside
        else inside)
      false

/-- Inside the exterior ring and inside no hole ring. -/
def point_in_polygon (lon lat : ℚ) (polygon_coords : List (List Pt)) : Bool :=
  match polygon_coords with
  | [] => false
  | exterior :: holes =>
    if !(_point_in_ring lon lat exterior) then false
    else if holes.any (fun hole => _point_in_ring lon lat hole) then false
    else true

/-- Containment over a feature list: features with missing or empty
coordinates, or with a non-Polygon/MultiPolygon type, are skipped. -/
def point_in_features (lon lat : ℚ) : List Feature → Bool
  | [] => false
  | feat :: rest =>
    (match feat.geometry with
     | none => false
     | some (Geometry.polygon coords) =>
         if coords = [] then false else point_in_polygon lon lat coords
     | some (Geometry.multiPolygon polys) =>
         if polys = [] then false
         else polys.any (fun poly => point_in_polygon lon lat poly)
     | some Geometry.other => false)
    || point_in_features lon lat rest

/-- props.get(key): first entry with that exact key. -/
def dictGet {α : Type} (props : List (String × α)) (key : String) : Option α :=
  (props.find? (fun kv => kv.1 == key)).map Prod.snd

/-! ## Boundary matchers (maps_intersecciones.py, maps_establecimientos.py) -/

/-- District matcher: keep features whose IDDIST normalizes to the target. -/
def features_distrito_por_ubigeo (distritos_features : List Feature)
    (target_ubi6 : String) : List Feature :=
  distritos_features.foldl
    (fun feats feat =>
      match dictGet feat.properties "IDDIST" with
      | some iddist =>
          if to_ubigeo6_maps iddist = some target_ubi6 then feats ++ [feat] else feats
      | none => feats)
    []

/-- The inner key scan of features_provincia_por_ubigeo: the loop breaks
(and the feature is taken) only when a ubigeo-named key normalizes exactly
to the target; on a value mismatch the scan continues. -/
def _ubigeo_prop_match : List (String × String) → String → Bool
  | [], _ => false
  | (k, v) :: rest, target =>
    if hasSubstr "ubigeo".data (k.data.map pyLower) then
      if to_ubigeo6_maps v = some target then true else _ubigeo_prop_match rest target
    else _ubigeo_prop_match rest target

/-- Per-feature step of features_provincia_por_ubigeo: ubigeo-key scan
first; when it does not fire, the IDPROV fallback compares the padded
digits against the first four target digits. -/
def _prov_feat_step (target_ubi6 : String) (target4 : Option (List Char))
    (feats : List Feature) (feat : Feature) : List Feature :=
  if _ubigeo_prop_match feat.properties target_ubi6 then feats ++ [feat]
  else
    match dictGet feat.properties "IDPROV", target4 with
    | some idprov, some t4 =>
        if zfillTake 4 (digitsOf idprov.data) = t4 then feats ++ [feat] else feats
    | _, _ => feats

/-- Province matcher over one or more collections, in input order. -/
def features_provincia_por_ubigeo (prov_gj_list : List (List Feature))
    (target_ubi6 : String) : List Feature :=
  prov_gj_list.foldl
    (fun feats prov_features =>
      prov_features.foldl
        (_prov_feat_step target_ubi6
          (if target_ubi6 = "" then none else some (target_ubi6.data.take 4)))
        feats)
    []

/-- Declarative reading of the province matcher's ubigeo-key clause: some
property whose lowered key contains "ubigeo" has a value that normalizes
exactly to the queried code. -/
def ubigeo_exact_match (feat : Feature) (target : String) : Bool :=
  feat.properties.any (fun kv =>
    hasSubstr "ubigeo".data (kv.1.data.map pyLower) &&
      decide (to_ubigeo6_maps kv.2 = some target))

/-- Declarative reading of the province matcher's IDPROV clause: for a
non-empty query, the IDPROV digits padded to four equal the query's first
four digits. -/
def idprov_fallback_match (feat : Feature) (target : String) : Bool :=
  match dictGet feat.properties "IDPROV" with
  | some idprov =>
      !(decide (target = "")) && decide (zfillTake 4 (digitsOf idprov.data) = target.data.take 4)
  | none => false

/-- District vs Province scope. -/
inductive GovernanceLevel : Type
  | district
  | province
  deriving DecidableEq

/-- Modelled from the spec: with no competence label, a code ending in "01"
is Province and anything else is District. -/
def classify_by_suffix (code : String) : GovernanceLevel :=
  if "01".data.isSuffixOf code.data then GovernanceLevel.province
  else GovernanceLevel.district

/-- Contour selection in map_for_excel: a code ending in "01" is looked up
in the province sources, anything else in the district source; a missing or
empty code yields no contour. -/
def contour_feats (distritos_features : List Feature)
    (prov_gj_list : List (List Feature)) (target_ubi : Option String) : List Feature :=
  match target_ubi with
  | none => []
  | some t =>
    if t = "" then []
    else if "01".data.isSuffixOf t.data then features_provincia_por_ubigeo prov_gj_list t
    else features_distrito_por_ubigeo distritos_features t

/-- The siniestros filter of map_for_excel: nothing is kept when the contour
is empty or there are no candidate points. -/
def filter_siniestros (feats : List Feature) (pts : List Pt) : List Pt :=
  if feats = [] ∨ pts = [] then []
  else pts.filter (fun p => point_in_features p.1 p.2 feats)

/-! ## Index merging (mix_ubigeo_geojson.py) -/

/-- The loop body of merge_indexes: record the key in the duplicate set
when it is already present, then overwrite merged[u6] with the new value. -/
def _merge_step {α : Type} (md : (String → Option α) × Finset String)
    (kv : String × α) : (String → Option α) × Finset String :=
  ((fun x => if x = kv.1 then some kv.2 else md.1 x),
   if (md.1 kv.1).isSome then insert kv.1 md.2 else md.2)

/-- merge_indexes: fold the indexes in input order into one dictionary,
last write winning, recording every overwritten key in a duplicate set. -/
def merge_indexes {α : Type} (index_list : List (List (String × α))) :
    (String → Option α) × Finset String :=
  index_list.foldl
    (fun merged_dups idx => idx.foldl _merge_step merged_dups)
    ((fun _ => none), ∅)

/-! ## Catalog cross-referencing (build_site.py) -/

/-- Python str.split on a single hyphen. -/
def splitOnHyphen : List Char → List (List Char)
  | [] => [[]]
  | c :: cs =>
    match splitOnHyphen cs with
    | [] => [[]]
    | h :: t => if c = '-' then [] :: h :: t else (c :: h) :: t

/-- The source split: dep, prov and dist are the first three
hyphen-separated tokens, empty when missing. -/
def _split_slug (name : String) : String × String × String :=
  let parts := (splitOnHyphen name.data).map String.mk
  (parts.getD 0 "", parts.getD 1 "", parts.getD 2 "")

/-- lower() then remove spaces and underscores. -/
def _norm_for_key (s : String) : String :=
  String.mk (((s.data.map pyLower).filter (fun c => decide (c ≠ ' '))).filter
    (fun c => decide (c ≠ '_')))

/-- Composite dep|prov|dist key. -/
def _key_from_parts (dep prov dist : String) : String :=
  _norm_for_key dep ++ "|" ++ (_norm_for_key prov ++ ("|" ++ _norm_for_key dist))

/-- The code-recovery chain of _scan_items_generic: exact lowercase slug
lookup first, then the parts index, "" when both miss. -/
def resolveCode (idx_slug idx_parts : String → Option String) (candidate : String) : String :=
  match idx_slug (lowerStr candidate) with
  | some ubi => ubi
  | none =>
    (idx_parts (_key_from_parts (_split_slug candidate).1
      (_split_slug candidate).2.1 (_split_slug candidate).2.2)).getD ""

/-- Modelled from the spec (claim C1 wording): the district token is the
entire remainder after the second hyphen, embedded hyphens preserved. -/
def _split_slug_spec (name : String) : String × String × String :=
  let parts := splitOnHyphen name.data
  (String.mk (parts.getD 0 []), String.mk (parts.getD 1 []),
   String.mk (List.intercalate ['-'] (parts.drop 2)))

/-- resolveCode as claim C1 words it, built on the spec split. -/
def resolveCode_spec (idx_slug idx_parts : String → Option String) (candidate : String) : String :=
  match idx_slug (lowerStr candidate) with
  | some ubi => ubi
  | none =>
    (idx_parts (_key_from_parts (_split_slug_spec candidate).1
      (_split_slug_spec candidate).2.1 (_split_slug_spec candidate).2.2)).getD ""

/-! ## Concrete fixtures -/

/-- A province feature whose only code property is IDPROV = "0601", over the
square with corners (0,0) and (2,2), centroid (1,1). -/
def provFeature0601 : Feature :=
  { properties := [("IDPROV", "0601")],
    geometry := some (Geometry.polygon [[(0, 0), (2, 0), (2, 2), (0, 2)]]) }

/-- The unit-square ring of claim C7. -/
def squareRing : List Pt := [(0, 0), (1, 0), (1, 1), (0, 1)]

/-- A hole ring carved from the unit square. -/
def holeRing : List Pt := [(1/4, 1/4), (3/4, 1/4), (3/4, 3/4), (1/4, 3/4)]

/-- A feature whose ubigeo-named property normalizes to a code other than
the query, but whose IDPROV digits match the query's first four digits. -/
def mixedPropsFeature : Feature :=
  { properties := [("UBIGEO", "060102"), ("IDPROV", "0601")],
    geometry := none }

end PI2026

namespace PI2026

/-! ## Basic lemmas about the string utilities -/

theorem isDigit_not_ws (c : Char) (h : c.isDigit = true) : c.isWhitespace = false := by
  rcases hw : c.isWhitespace with _ | _
  · rfl
  · exfalso
    have hw' : c = ' ' ∨ c = '\t' ∨ c = '\r' ∨ c = '\n' := by
      simpa [Char.isWhitespace, or_assoc] using hw
    rcases hw' with rfl | rfl | rfl | rfl <;> exact absurd h (by decide)

theorem dropWhile_ws_digits (l : List Char) (h : ∀ c ∈ l, c.isDigit = true) :
    l.dropWhile Char.isWhitespace = l := by
  cases l with
  | nil => rfl
  | cons a as =>
    have ha : Char.isWhitespace a = false := isDigit_not_ws a (h a (by simp))
    simp [List.dropWhile, ha]

theorem trimChars_of_digits (l : List Char) (h : ∀ c ∈ l, c.isDigit = true) :
    trimChars l = l := by
  unfold trimChars
  rw [dropWhile_ws_digits l h,
    dropWhile_ws_digits l.reverse (fun c hc => h c (List.mem_reverse.mp hc)),
    List.reverse_reverse]

theorem stripDotZero_of_digits (l : List Char) (h : ∀ c ∈ l, c.isDigit = true) :
    stripDotZero l = l := by
  unfold stripDotZero
  rw [if_neg]
  intro heq
  have hdot : '.' ∈ l := by
    have hm : '.' ∈ l.reverse.take 2 := by rw [heq]; simp
    exact List.mem_reverse.mp (List.take_subset _ _ hm)
  exact absurd (h _ hdot) (by decide)

theorem digitsOf_all (l : List Char) : ∀ c ∈ digitsOf l, c.isDigit = true := by
  intro c hc
  exact List.of_mem_filter hc

theorem digitsOf_of_digits (l : List Char) (h : ∀ c ∈ l, c.isDigit = true) :
    digitsOf l = l :=
  List.filter_eq_self.mpr h

theorem zfillTake_length (n : Nat) (l : List Char) : (zfillTake n l).length = n := by
  simp [zfillTake]
  omega

theorem zfillTake_all (n : Nat) (l : List Char) (h : ∀ c ∈ l, c.isDigit = true) :
    ∀ c ∈ zfillTake n l, c.isDigit = true := by
  intro c hc
  have hc' := List.take_subset n _ hc
  rcases List.mem_append.mp hc' with hrep | hl
  · have := List.eq_of_mem_replicate hrep
    subst this; decide
  · exact h c hl

theorem zfillTake_of_length (n : Nat) (l : List Char) (h : l.length = n) :
    zfillTake n l = l := by
  unfold zfillTake
  rw [h, Nat.sub_self, List.replicate_zero, List.nil_append, ← h, List.take_length]

theorem to_ubigeo6_maps_eq_spec (x : String) : to_ubigeo6_maps x = normalize_spec x := rfl

/-- Shared shape fact: any successful output of either normalizer is the
zfillTake of its digit extraction. -/
theorem to_ubigeo6_sixdigits (r : String)
    (h : (∃ s, to_ubigeo6_maps s = some r) ∨ (∃ s, to_ubigeo6_split s = some r)) :
    r.length = 6 ∧ r.data.all Char.isDigit = true ∧
      to_ubigeo6_maps r = some r ∧ to_ubigeo6_split r = some r := by
  have hr : ∃ d : List Char, (∀ c ∈ d, c.isDigit = true) ∧ r.data = zfillTake 6 d := by
    rcases h with ⟨s, hs⟩ | ⟨s, hs⟩
    · unfold to_ubigeo6_maps at hs
      split at hs
      · exact absurd hs (by simp)
      · refine ⟨digitsOf (stripDotZero (trimChars s.data)), digitsOf_all _, ?_⟩
        have := Option.some.inj hs
        rw [← this]
    · unfold to_ubigeo6_split at hs
      split at hs
      · exact absurd hs (by simp)
      · refine ⟨digitsOf (trimChars s.data), digitsOf_all _, ?_⟩
        have := Option.some.inj hs
        rw [← this]
  rcases hr with ⟨d, hd, hrd⟩
  have hall : ∀ c ∈ r.data, c.isDigit = true := by
    rw [hrd]; exact zfillTake_all 6 d hd
  have hlen : r.data.length = 6 := by rw [hrd]; exact zfillTake_length 6 d
  have hfix : ∀ f : String → Option String,
      (∀ y : String, f y =
        (if digitsOf (stripDotZero (trimChars y.data)) = [] then none
         else some (String.mk (zfillTake 6 (digitsOf (stripDotZero (trimChars y.data))))))) →
      f r = some r := by
    intro f hf
    rw [hf r, trimChars_of_digits _ hall, stripDotZero_of_digits _ hall,
      digitsOf_of_digits _ hall, if_neg (by intro hnil; rw [hnil] at hlen; simp at hlen),
      zfillTake_of_length 6 _ hlen]
  constructor
  · exact hlen
  refine ⟨List.all_eq_true.mpr hall, ?_, ?_⟩
  · exact hfix to_ubigeo6_maps (fun y => rfl)
  · -- the split variant: no ".0" strip, but r is all digits so the strip is a no-op anyway
    show (if digitsOf (trimChars r.data) = [] then none
      else some (String.mk (zfillTake 6 (digitsOf (trimChars r.data))))) = some r
    rw [trimChars_of_digits _ hall, digitsOf_of_digits _ hall,
      if_neg (by intro hnil; rw [hnil] at hlen; simp at hlen),
      zfillTake_of_length 6 _ hlen]

end PI2026

namespace PI2026

/-! ## Claim C2: the code normalizer -/

/-- C2 counterexample: the split scripts' to_ubigeo6 does not strip a
trailing ".0": on "1234.0" it keeps the final 0 as a digit and yields
"012340", while the claimed pipeline (followed by the maps scripts)
yields "001234". -/
theorem C2_counterexample :
    to_ubigeo6_split "1234.0" = some "012340" ∧
    normalize_spec "1234.0" = some "001234" ∧
    to_ubigeo6_split "1234.0" ≠ normalize_spec "1234.0" := by
  have h1 : to_ubigeo6_split "1234.0" = some "012340" := by with_unfolding_all rfl
  have h2 : normalize_spec "1234.0" = some "001234" := by with_unfolding_all rfl
  refine ⟨h1, h2, ?_⟩
  rw [h1, h2]
  intro h
  exact absurd (Option.some.inj h) (by decide)

/-- C2 (amended): the maps scripts' normalizer follows the claimed pipeline
including the ".0" strip; the split scripts' normalizer omits that strip
but otherwise behaves the same; for both, every non-absent result is
exactly 6 digits and renormalizing it is a no-op. -/
theorem C2_normalizer (s r : String)
    (h : to_ubigeo6_maps s = some r ∨ to_ubigeo6_split s = some r) :
    to_ubigeo6_maps s = normalize_spec s ∧
    r.length = 6 ∧ r.data.all Char.isDigit = true ∧
    to_ubigeo6_maps r = some r ∧ to_ubigeo6_split r = some r := by
  have hh := to_ubigeo6_sixdigits r (h.imp (fun hm => ⟨s, hm⟩) (fun hm => ⟨s, hm⟩))
  exact ⟨rfl, hh.1, hh.2.1, hh.2.2.1, hh.2.2.2⟩

/-- C2 witness: the normalizer facts evaluated at the concrete raw input "7". -/
theorem C2_normalizer_witness :
    (to_ubigeo6_maps "7" = some "000007" ∨ to_ubigeo6_split "7" = some "000007") ∧
    (to_ubigeo6_maps "7" = normalize_spec "7" ∧
      ("000007" : String).length = 6 ∧
      ("000007" : String).data.all Char.isDigit = true ∧
      to_ubigeo6_maps "000007" = some "000007" ∧
      to_ubigeo6_split "000007" = some "000007") :=
  ⟨Or.inl (by with_unfolding_all rfl),
   C2_normalizer "7" "000007" (Or.inl (by with_unfolding_all rfl))⟩

/-! ## Claim C4: end-to-end IDPROV fallback match -/

/-- C4: a province index holding one feature whose only code property is
IDPROV = "0601", queried with governing code "060101", returns that
feature, and its centroid (1,1) tests as contained; a governing code whose
first four digits differ ("060201") matches nothing. -/
theorem C4_idprov_end_to_end :
    features_provincia_por_ubigeo [[provFeature0601]] "060101" = [provFeature0601] ∧
    point_in_features 1 1 [provFeature0601] = true ∧
    features_provincia_por_ubigeo [[provFeature0601]] "060201" = [] :=
  ⟨by with_unfolding_all rfl, by with_unfolding_all rfl, by with_unfolding_all rfl⟩

/-! ## Claim C5: provincial competence forces the "01" suffix -/

/-- C5: whenever the code normalizes and the normalized competence label
contains one of the provincial tokens, compute_gestor returns the first
four digits of the normalized code followed by "01"; in particular
("060102", "Provincial") yields "060101". -/
theorem C5_provincial_gestor (ubigeo comp u6 : String)
    (hu : to_ubigeo6_split ubigeo = some u6)
    (hc : provTokens.any (fun k => strContains (norm comp) k) = true) :
    compute_gestor ubigeo comp = some (String.mk (u6.data.take 4) ++ "01") ∧
    compute_gestor "060102" "Provincial" = some "060101" := by
  constructor
  · simp [compute_gestor, hu, hc]
  · with_unfolding_all rfl

/-- C5 witness: compute_gestor evaluated at ("060102", "Provincial"). -/
theorem C5_provincial_gestor_witness :
    compute_gestor "060102" "Provincial" =
      some (String.mk (("060102" : String).data.take 4) ++ "01") ∧
    compute_gestor "060102" "Provincial" = some "060101" :=
  C5_provincial_gestor "060102" "Provincial" "060102"
    (by with_unfolding_all rfl) (by with_unfolding_all rfl)

/-! ## Claim C6: suffix-only classification without a label -/

/-- C6: with no competence label in play, map_for_excel dispatches purely on
the code suffix: a code ending in "01" is looked up in the province
sources and any other code in the district source; a missing code yields
no contour. -/
theorem C6_suffix_dispatch (distritos : List Feature) (provincias : List (List Feature))
    (t : String) (ht : t ≠ "") :
    contour_feats distritos provincias none = [] ∧
    contour_feats distritos provincias (some t) =
      (match classify_by_suffix t with
       | GovernanceLevel.province => features_provincia_por_ubigeo provincias t
       | GovernanceLevel.district => features_distrito_por_ubigeo distritos t) := by
  refine ⟨rfl, ?_⟩
  by_cases h01 : "01".data.isSuffixOf t.data = true
  · simp [contour_feats, classify_by_suffix, ht, h01]
  · rw [Bool.not_eq_true] at h01
    simp [contour_feats, classify_by_suffix, ht, h01]

/-- C6 witness: the dispatch evaluated at the province-suffixed code
"060101". -/
theorem C6_suffix_dispatch_witness :
    contour_feats [] [[provFeature0601]] none = [] ∧
    contour_feats [] [[provFeature0601]] (some "060101") =
      (match classify_by_suffix "060101" with
       | GovernanceLevel.province => features_provincia_por_ubigeo [[provFeature0601]] "060101"
       | GovernanceLevel.district => features_distrito_por_ubigeo [] "060101") :=
  C6_suffix_dispatch [] [[provFeature0601]] "060101" (by decide)

/-! ## Claim C7: ray casting on the unit square and a hole -/

/-- C7: (0.5,0.5) is inside the unit-square ring and (2,2) is outside; any
point inside the hole ring is classified outside the polygon made of the
square exterior and that hole, despite being inside the exterior. -/
theorem C7_ray_casting (lon lat : ℚ) (h : _point_in_ring lon lat holeRing = true) :
    _point_in_ring (1/2) (1/2) squareRing = true ∧
    _point_in_ring 2 2 squareRing = false ∧
    point_in_polygon lon lat [squareRing, holeRing] = false := by
  refine ⟨by with_unfolding_all rfl, by with_unfolding_all rfl, ?_⟩
  simp [point_in_polygon, h]

/-- C7 witness: the hole-point case evaluated at (0.5,0.5), which is inside
both the square and the hole ring. -/
theorem C7_ray_casting_witness :
    _point_in_ring (1/2) (1/2) squareRing = true ∧
    _point_in_ring 2 2 squareRing = false ∧
    point_in_polygon (1/2) (1/2) [squareRing, holeRing] = false :=
  C7_ray_casting (1/2) (1/2) (by with_unfolding_all rfl)

/-! ## Claim C9: empty boundary list -/

/-- C9: filtering any point set against an empty boundary feature list
returns the empty subset, because containment over an empty feature list
is false for every point. -/
theorem C9_empty_boundary (pts : List Pt) (lon lat : ℚ) :
    filter_siniestros [] pts = [] ∧ point_in_features lon lat [] = false := by
  exact ⟨by simp [filter_siniestros], rfl⟩

/-! ## Claim C10: degenerate geometry is total -/

/-- C10: an empty ring is never inside, a polygon with no rings is never
inside, and a feature with missing or empty coordinates is skipped by the
feature-set containment test. -/
theorem C10_degenerate_geometry (lon lat : ℚ) (f : Feature) (rest : List Feature)
    (h : f.geometry = none ∨ f.geometry = some (Geometry.polygon []) ∨
      f.geometry = some (Geometry.multiPolygon [])) :
    _point_in_ring lon lat [] = false ∧
    point_in_polygon lon lat [] = false ∧
    point_in_features lon lat (f :: rest) = point_in_features lon lat rest := by
  refine ⟨by simp [_point_in_ring], rfl, ?_⟩
  rcases h with h | h | h <;> simp [point_in_features, h]

/-- C10 witness: the degenerate cases evaluated at the origin and a feature
with no geometry. -/
theorem C10_degenerate_geometry_witness :
    _point_in_ring 0 0 [] = false ∧
    point_in_polygon 0 0 [] = false ∧
    point_in_features 0 0 [⟨[], none⟩] = point_in_features 0 0 [] :=
  C10_degenerate_geometry 0 0 ⟨[], none⟩ [] (Or.inl rfl)

end PI2026

namespace PI2026

/-! ## Claim C3: province matcher precedence -/

/-- The break-on-success key scan is the any-combinator over properties. -/
theorem _ubigeo_prop_match_eq_any (props : List (String × String)) (t : String) :
    _ubigeo_prop_match props t =
      props.any (fun kv => hasSubstr "ubigeo".data (kv.1.data.map pyLower) &&
        decide (to_ubigeo6_maps kv.2 = some t)) := by
  induction props with
  | nil => rfl
  | cons kv rest ih =>
    obtain ⟨k, v⟩ := kv
    by_cases hs : hasSubstr "ubigeo".data (k.data.map pyLower) = true
    · by_cases he : to_ubigeo6_maps v = some t
      · simp [_ubigeo_prop_match, hs, he]
      · simp [_ubigeo_prop_match, hs, he, ih]
    · rw [Bool.not_eq_true] at hs
      simp [_ubigeo_prop_match, hs, ih]

/-- The declarative ubigeo clause coincides with the source's key scan. -/
theorem ubigeo_exact_match_eq (f : Feature) (t : String) :
    ubigeo_exact_match f t = _ubigeo_prop_match f.properties t :=
  (_ubigeo_prop_match_eq_any f.properties t).symm

/-- One province-feature step is a conditional append guarded by the
disjunction of the two clauses. -/
theorem _prov_feat_step_eq (t : String) (feats : List Feature) (f : Feature) :
    _prov_feat_step t (if t = "" then none else some (t.data.take 4)) feats f =
      (if (ubigeo_exact_match f t || idprov_fallback_match f t) then feats ++ [f]
       else feats) := by
  rw [ubigeo_exact_match_eq]
  by_cases hu : _ubigeo_prop_match f.properties t = true
  · simp [_prov_feat_step, hu]
  · rw [Bool.not_eq_true] at hu
    by_cases ht : t = ""
    · subst ht
      cases hd : dictGet f.properties "IDPROV" <;>
        simp [_prov_feat_step, hu, idprov_fallback_match, hd]
    · cases hd : dictGet f.properties "IDPROV" with
      | none => simp [_prov_feat_step, hu, idprov_fallback_match, hd, ht]
      | some idprov =>
        by_cases hz : zfillTake 4 (digitsOf idprov.data) = t.data.take 4 <;>
          simp [_prov_feat_step, hu, idprov_fallback_match, hd, ht, hz]

/-- Conditional-append folds are filters. -/
theorem foldl_ite_append {α : Type} (p : α → Bool) (l acc : List α) :
    l.foldl (fun a x => if p x then a ++ [x] else a) acc = acc ++ l.filter p := by
  induction l generalizing acc with
  | nil => simp
  | cons x xs ih =>
    by_cases hp : p x = true
    · simp [List.foldl_cons, hp, ih, List.filter_cons]
    · rw [Bool.not_eq_true] at hp
      simp [List.foldl_cons, hp, ih, List.filter_cons]

/-- Folds of pointwise-equal step functions agree. -/
theorem foldl_congr_fun {α β : Type} (f g : β → α → β) (h : ∀ b a, f b a = g b a) :
    ∀ (l : List α) (b : β), l.foldl f b = l.foldl g b := by
  intro l
  induction l with
  | nil => intro b; rfl
  | cons x xs ih =>
    intro b
    rw [List.foldl_cons, List.foldl_cons, h, ih]

/-- C3 (amended): a ubigeo-named property takes precedence only when one of
its values normalizes exactly to the queried code; a feature whose
ubigeo-named values all differ from the query is still eligible for the
IDPROV fallback (padded digits against the query's first four digits), and
the matcher keeps, in input order, exactly the features satisfying either
clause. -/
theorem C3_province_precedence (prov_gj_list : List (List Feature)) (t : String) :
    features_provincia_por_ubigeo prov_gj_list t =
      (prov_gj_list.map (fun gj => gj.filter
        (fun f => ubigeo_exact_match f t || idprov_fallback_match f t))).flatten := by
  unfold features_provincia_por_ubigeo
  suffices h : ∀ acc : List Feature,
      prov_gj_list.foldl (fun feats prov_features =>
        prov_features.foldl
          (_prov_feat_step t (if t = "" then none else some (t.data.take 4))) feats) acc
        = acc ++ (prov_gj_list.map (fun gj => gj.filter
            (fun f => ubigeo_exact_match f t || idprov_fallback_match f t))).flatten by
    simpa using h []
  intro acc
  induction prov_gj_list generalizing acc with
  | nil => simp
  | cons gj rest ih =>
    rw [List.foldl_cons,
      foldl_congr_fun _ _ (fun b a => _prov_feat_step_eq t b a) gj acc,
      foldl_ite_append, ih]
    simp [List.append_assoc]

/-- C3 counterexample: a feature that carries a ubigeo-named property with a
normalizable value ("060102") is nonetheless matched for query "060101"
through its IDPROV fallback, contradicting the claim that such a feature is
never matched that way. -/
theorem C3_counterexample :
    features_provincia_por_ubigeo [[mixedPropsFeature]] "060101" = [mixedPropsFeature] ∧
    to_ubigeo6_maps "060102" = some "060102" ∧
    ubigeo_exact_match mixedPropsFeature "060101" = false ∧
    idprov_fallback_match mixedPropsFeature "060101" = true :=
  ⟨by with_unfolding_all rfl, by with_unfolding_all rfl,
   by with_unfolding_all rfl, by with_unfolding_all rfl⟩

end PI2026

namespace PI2026

/-! ## Claim C1: slug splitting and code recovery -/

/-- Python str.split never returns an empty list. -/
theorem splitOnHyphen_ne_nil (l : List Char) : splitOnHyphen l ≠ [] := by
  cases l with
  | nil => simp [splitOnHyphen]
  | cons c cs =>
    cases h : splitOnHyphen cs with
    | nil => simp [splitOnHyphen, h]
    | cons hh tt =>
      by_cases hc : c = '-' <;> simp [splitOnHyphen, h, hc]

/-- Splitting a string whose first token is hyphen-free peels that token. -/
theorem splitOnHyphen_append (d r : List Char) (hd : '-' ∉ d) :
    splitOnHyphen (d ++ '-' :: r) = d :: splitOnHyphen r := by
  induction d with
  | nil =>
    cases h : splitOnHyphen r with
    | nil => exact absurd h (splitOnHyphen_ne_nil r)
    | cons hh tt => simp [splitOnHyphen, h]
  | cons a d' ih =>
    have ha : a ≠ '-' := by
      intro he; subst he; exact hd (List.mem_cons_self _ _)
    have hd' : '-' ∉ d' := fun hm => hd (List.mem_cons_of_mem a hm)
    rw [List.cons_append]
    rw [show splitOnHyphen (a :: (d' ++ '-' :: r)) =
        (match splitOnHyphen (d' ++ '-' :: r) with
         | [] => [[]]
         | h :: t => if a = '-' then [] :: h :: t else (a :: h) :: t) from rfl]
    rw [ih hd']
    simp [ha]

/-- The first token produced by the split is the hyphen-free head. -/
theorem splitOnHyphen_headD (l : List Char) :
    (splitOnHyphen l).getD 0 [] = l.takeWhile (fun c => c != '-') := by
  induction l with
  | nil => rfl
  | cons c cs ih =>
    cases h : splitOnHyphen cs with
    | nil => exact absurd h (splitOnHyphen_ne_nil cs)
    | cons hh tt =>
      rw [h] at ih
      by_cases hc : c = '-'
      · subst hc
        simp [splitOnHyphen, h, List.takeWhile_cons]
      · simp [splitOnHyphen, h, hc, List.takeWhile_cons, List.getD_cons_zero] at ih ⊢
        exact ih

/-- C1 (amended): the source split takes dep and prov as the first two
hyphen-separated tokens and the district as the third token only, cutting
the district at any further hyphen instead of keeping the remainder
verbatim; resolveCode then tries the lowercased slug index and falls back
to the parts index keyed on those three tokens, returning "" on a double
miss. -/
theorem C1_slug_resolution (dep prov dist : List Char) (hd : '-' ∉ dep) (hp : '-' ∉ prov)
    (name : String) (hname : name.data = dep ++ '-' :: (prov ++ '-' :: dist))
    (idx_slug idx_parts : String → Option String) :
    _split_slug name =
      (String.mk dep, String.mk prov, String.mk (dist.takeWhile (fun c => c != '-'))) ∧
    (∀ u, idx_slug (lowerStr name) = some u → resolveCode idx_slug idx_parts name = u) ∧
    (idx_slug (lowerStr name) = none →
      resolveCode idx_slug idx_parts name =
        (idx_parts (_key_from_parts (String.mk dep) (String.mk prov)
          (String.mk (dist.takeWhile (fun c => c != '-'))))).getD "") := by
  have hsplit : splitOnHyphen name.data = dep :: prov :: splitOnHyphen dist := by
    rw [hname, splitOnHyphen_append dep _ hd, splitOnHyphen_append prov dist hp]
  have hparts : _split_slug name =
      (String.mk dep, String.mk prov, String.mk (dist.takeWhile (fun c => c != '-'))) := by
    cases h : splitOnHyphen dist with
    | nil => exact absurd h (splitOnHyphen_ne_nil dist)
    | cons hh tt =>
      have hhd : hh = dist.takeWhile (fun c => c != '-') := by
        have h0 := splitOnHyphen_headD dist
        rw [h] at h0
        simpa using h0
      simp [_split_slug, hsplit, h, hhd]
  refine ⟨hparts, ?_, ?_⟩
  · intro u hu
    simp [resolveCode, hu]
  · intro hnone
    simp [resolveCode, hnone, hparts]

/-- C1 witness: the slug "L-P-D-X" splits with district token "D" (the
text after the third hyphen is dropped) and resolves through the parts
index. -/
theorem C1_slug_resolution_witness :
    _split_slug "L-P-D-X" =
      (String.mk ['L'], String.mk ['P'],
        String.mk (['D', '-', 'X'].takeWhile (fun c => c != '-'))) ∧
    resolveCode (fun _ => none) (fun _ => some "123456") "L-P-D-X" = "123456" := by
  have h := C1_slug_resolution ['L'] ['P'] ['D', '-', 'X'] (by decide) (by decide)
    "L-P-D-X" (by with_unfolding_all rfl) (fun _ => none) (fun _ => some "123456")
  refine ⟨h.1, ?_⟩
  rw [h.2.2 rfl]
  rfl

/-- C1 counterexample: with a parts index keyed as the claim describes
(district = full remainder "c-d"), the implementation returns "" for the
candidate "A-B-C-D" while the claimed behaviour returns the catalog code;
the source keeps only the third token "C" and probes key "a|b|c". -/
theorem C1_counterexample :
    resolveCode (fun _ => none)
      (fun key => if key = "a|b|c-d" then some "111111" else none) "A-B-C-D" = "" ∧
    resolveCode_spec (fun _ => none)
      (fun key => if key = "a|b|c-d" then some "111111" else none) "A-B-C-D" = "111111" :=
  ⟨by with_unfolding_all rfl, by with_unfolding_all rfl⟩

end PI2026

namespace PI2026

/-! ## Claim C8: merging province indexes -/

/-- dictGet on a cons is a conditional on the head key. -/
theorem dictGet_cons {α : Type} (k : String) (v : α) (tl : List (String × α)) (x : String) :
    dictGet ((k, v) :: tl) x = if k = x then some v else dictGet tl x := by
  by_cases h : k = x
  · simp [dictGet, List.find?_cons, h]
  · have hb : ((k, v).1 == x) = false := by simpa using h
    simp [dictGet, List.find?_cons, hb, h]

/-- dictGet misses keys that are absent. -/
theorem dictGet_eq_none_of_not_mem {α : Type} (l : List (String × α)) (x : String)
    (h : x ∉ l.map Prod.fst) : dictGet l x = none := by
  induction l with
  | nil => rfl
  | cons kv tl ih =>
    obtain ⟨k, v⟩ := kv
    have hk : k ≠ x := by
      intro he; subst he; exact h (by simp)
    rw [dictGet_cons, if_neg hk]
    exact ih (fun hm => h (by simp [hm]))

/-- dictGet hits exactly the present keys. -/
theorem dictGet_isSome_iff {α : Type} (l : List (String × α)) (x : String) :
    (dictGet l x).isSome = true ↔ x ∈ l.map Prod.fst := by
  induction l with
  | nil => simp [dictGet]
  | cons kv tl ih =>
    obtain ⟨k, v⟩ := kv
    rw [dictGet_cons]
    by_cases h : k = x
    · subst h; simp
    · simp [h, ih, Ne.symm h]

/-- With duplicate-free keys, dictGet returns the stored value. -/
theorem dictGet_of_mem {α : Type} (l : List (String × α)) (k : String) (v : α)
    (hnd : (l.map Prod.fst).Nodup) (hm : (k, v) ∈ l) : dictGet l k = some v := by
  induction l with
  | nil => cases hm
  | cons kv tl ih =>
    obtain ⟨k0, v0⟩ := kv
    have hnd' : k0 ∉ tl.map Prod.fst ∧ (tl.map Prod.fst).Nodup := by
      have hcopy := hnd
      rw [List.map_cons, List.nodup_cons] at hcopy
      exact hcopy
    rw [dictGet_cons]
    rcases List.mem_cons.mp hm with heq | htl
    · injection heq with h1 h2
      subst h1; subst h2
      simp
    · have hne : k0 ≠ k := by
        intro he; subst he
        exact hnd'.1 (List.mem_map.mpr ⟨(k0, v), htl, rfl⟩)
      rw [if_neg hne]
      exact ih hnd'.2 htl

/-- The merged-map component after folding one duplicate-free index: a key
of the index takes its value there, any other key keeps its prior value. -/
theorem merge_inner_fst {α : Type} (idx : List (String × α)) (m : String → Option α)
    (d : Finset String) (h : (idx.map Prod.fst).Nodup) (x : String) :
    (idx.foldl _merge_step (m, d)).1 x = (dictGet idx x).or (m x) := by
  induction idx generalizing m d with
  | nil => simp [dictGet]
  | cons kv tl ih =>
    obtain ⟨k, v⟩ := kv
    have hnd' : k ∉ tl.map Prod.fst ∧ (tl.map Prod.fst).Nodup := by
      have hcopy := h
      rw [List.map_cons, List.nodup_cons] at hcopy
      exact hcopy
    rw [List.foldl_cons]
    rw [show _merge_step (m, d) (k, v) =
        ((fun y => if y = k then some v else m y),
         if (m k).isSome then insert k d else d) from rfl]
    rw [ih _ _ hnd'.2, dictGet_cons]
    by_cases hx : x = k
    · subst hx
      rw [dictGet_eq_none_of_not_mem tl x hnd'.1]
      simp
    · simp [hx, Ne.symm hx]

/-- Membership in the duplicate set after folding one duplicate-free index:
either it was already recorded, or the key occurs in the index and was
already present in the map. -/
theorem merge_inner_snd_mem {α : Type} (idx : List (String × α)) (m : String → Option α)
    (d : Finset String) (h : (idx.map Prod.fst).Nodup) (x : String) :
    (x ∈ (idx.foldl _merge_step (m, d)).2) ↔
      (x ∈ d ∨ (x ∈ idx.map Prod.fst ∧ (m x).isSome = true)) := by
  induction idx generalizing m d with
  | nil => simp
  | cons kv tl ih =>
    obtain ⟨k, v⟩ := kv
    have hnd' : k ∉ tl.map Prod.fst ∧ (tl.map Prod.fst).Nodup := by
      have hcopy := h
      rw [List.map_cons, List.nodup_cons] at hcopy
      exact hcopy
    rw [List.foldl_cons]
    rw [show _merge_step (m, d) (k, v) =
        ((fun y => if y = k then some v else m y),
         if (m k).isSome then insert k d else d) from rfl]
    rw [ih _ _ hnd'.2]
    by_cases hx : x = k
    · subst hx
      have hxtl : x ∉ tl.map Prod.fst := hnd'.1
      cases hmk : (m x).isSome <;> simp [hmk, hxtl]
    · cases hmk : (m k).isSome <;>
        simp [hmk, hx, Finset.mem_insert, Ne.symm hx]

/-- C8: merging two duplicate-free indexes that share exactly the key k
keeps the later index's value at k, and the duplicate set is exactly the
singleton k (collision count 1). -/
theorem C8_merge_last_wins {α : Type} (A B : List (String × α)) (k : String) (vB : α)
    (hA : (A.map Prod.fst).Nodup) (hB : (B.map Prod.fst).Nodup)
    (hkB : (k, vB) ∈ B)
    (hshare : ∀ x, (x ∈ A.map Prod.fst ∧ x ∈ B.map Prod.fst) ↔ x = k) :
    (merge_indexes [A, B]).1 k = some vB ∧
    (merge_indexes [A, B]).2 = {k} ∧ (merge_indexes [A, B]).2.card = 1 := by
  have hun : merge_indexes [A, B] =
      B.foldl _merge_step (A.foldl _merge_step ((fun _ => none), ∅)) := by
    simp [merge_indexes]
  have hA1 : ∀ x, (A.foldl _merge_step
      ((fun _ => none : String → Option α), (∅ : Finset String))).1 x = dictGet A x := by
    intro x
    rw [show A.foldl _merge_step ((fun _ => none : String → Option α), (∅ : Finset String)) =
      ((A.foldl _merge_step ((fun _ => none), ∅)).1,
       (A.foldl _merge_step ((fun _ => none), ∅)).2) from rfl] at *
    rw [merge_inner_fst A _ _ hA]
    simp
  have hA2 : ∀ x, x ∈ (A.foldl _merge_step
      ((fun _ => none : String → Option α), (∅ : Finset String))).2 ↔ False := by
    intro x
    rw [show A.foldl _merge_step ((fun _ => none : String → Option α), (∅ : Finset String)) =
      ((A.foldl _merge_step ((fun _ => none), ∅)).1,
       (A.foldl _merge_step ((fun _ => none), ∅)).2) from rfl] at *
    rw [merge_inner_snd_mem A _ _ hA]
    simp
  have hfin1 : ∀ x, (merge_indexes [A, B]).1 x = (dictGet B x).or (dictGet A x) := by
    intro x
    rw [hun, show B.foldl _merge_step (A.foldl _merge_step ((fun _ => none), ∅)) =
      B.foldl _merge_step ((A.foldl _merge_step ((fun _ => none), ∅)).1,
        (A.foldl _merge_step ((fun _ => none), ∅)).2) from rfl,
      merge_inner_fst B _ _ hB, hA1]
  have hfin2 : ∀ x, x ∈ (merge_indexes [A, B]).2 ↔
      (x ∈ B.map Prod.fst ∧ x ∈ A.map Prod.fst) := by
    intro x
    rw [hun, show B.foldl _merge_step (A.foldl _merge_step ((fun _ => none), ∅)) =
      B.foldl _merge_step ((A.foldl _merge_step ((fun _ => none), ∅)).1,
        (A.foldl _merge_step ((fun _ => none), ∅)).2) from rfl,
      merge_inner_snd_mem B _ _ hB]
    constructor
    · rintro (hfalse | ⟨hb, hsome⟩)
      · exact absurd hfalse (by rw [hA2 x]; exact id)
      · rw [hA1 x] at hsome
        exact ⟨hb, (dictGet_isSome_iff A x).mp hsome⟩
    · rintro ⟨hb, ha⟩
      refine Or.inr ⟨hb, ?_⟩
      rw [hA1 x]
      exact (dictGet_isSome_iff A x).mpr ha
  have hset : (merge_indexes [A, B]).2 = {k} := by
    apply Finset.ext
    intro x
    rw [hfin2 x, Finset.mem_singleton]
    constructor
    · rintro ⟨hb, ha⟩
      exact (hshare x).mp ⟨ha, hb⟩
    · rintro rfl
      have hk := (hshare x).mpr rfl
      exact ⟨hk.2, hk.1⟩
  refine ⟨?_, hset, ?_⟩
  · rw [hfin1 k, dictGet_of_mem B k vB hB hkB]
    rfl
  · rw [hset]
    exact Finset.card_singleton k

/-- C8 witness: two singleton indexes sharing the key "060101"; the merged
map keeps the second index's value 2 and the duplicate set has size 1. -/
theorem C8_merge_last_wins_witness :
    (merge_indexes [[("060101", 1)], [("060101", 2)]]).1 "060101" = some 2 ∧
    (merge_indexes [[("060101", 1)], [("060101", 2)]]).2 = {"060101"} ∧
    (merge_indexes [[("060101", 1)], [("060101", 2)]]).2.card = 1 :=
  C8_merge_last_wins [("060101", 1)] [("060101", 2)] "060101" 2
    (by simp) (by simp) (by simp) (by intro x; simp)

end PI2026
